import Mathlib

/-!
Shallow embedding of the game-backend core from `src/main.py`:
data model (SQLAlchemy tables), session helpers, and the endpoint
bodies `register`, `login`, `logout`, `complete_level`, `update_me`.
Machine state is a record of table contents; each endpoint is a pure
function from state (plus the authenticated row and request payload)
to an `Except` carrying either an HTTP error or the committed state
and the response value.  Python `int(...)` on strings and `str(...)`
on ints are modelled by `pyIntParse` and `pyStr`.
-/

namespace Game

/-- ORM row of table `users` (`class User` in main.py). -/
structure User where
  id : Nat
  document : String
  name : String
  school : String
  gender : String
  money : String
  level : Int
  deriving Repr, DecidableEq

/-- ORM row of table `user_time` (`class UserTime`). -/
structure UserTime where
  user_id : Nat
  time : Int
  level : Int
  deriving Repr, DecidableEq

/-- ORM row of table `item` (`class ItemModel`). -/
structure ItemModel where
  id : Nat
  name : String
  item_type : String
  deriving Repr, DecidableEq

/-- ORM row of table `user_earned_items` (`class UserEarnedItem`). -/
structure UserEarnedItem where
  user_id : Nat
  item_id : Nat
  deriving Repr, DecidableEq

/-- ORM row of table `sessions` (`class SessionToken`); timestamps are integers. -/
structure SessionToken where
  user_id : Nat
  token : String
  expires_at : Int
  deriving Repr, DecidableEq

/-- The five tables of the store. -/
structure DB where
  users : List User
  sessions : List SessionToken
  items : List ItemModel
  earned : List UserEarnedItem
  times : List UserTime
  deriving Repr, DecidableEq

/-- `SCHOOL_VALUES` from main.py. -/
def SCHOOL_VALUES : List String := ["Aguachica", "La Argentina", "Aractaca"]

/-- `GENDER_VALUES` from main.py. -/
def GENDER_VALUES : List String := ["Masculino", "Femenino"]

/-- `LEVEL_REWARDS` from main.py; `LEVEL_REWARDS.get(lvl, [])`. -/
def LEVEL_REWARDS (lvl : Int) : List String :=
  if lvl = 1 then ["cinturon", "cristal-rojo"]
  else if lvl = 2 then ["pechera", "cristal-amarillo"]
  else if lvl = 3 then ["botas", "cristal-gris"]
  else if lvl = 4 then ["casco", "cristal-verde"]
  else []

/-! ### Model of Python `int(s)` and `str(n)` -/

/-- Tail of Python's integer-literal digit grammar: digits optionally
separated by single underscores (an underscore must be followed by a digit). -/
def pyDigitTailAux : Bool → List Char → Bool
  | au, [] => !au
  | au, c :: rest =>
    if c = '_' then !au && pyDigitTailAux true rest
    else c.isDigit && pyDigitTailAux false rest

/-- Tail of the digit grammar, starting right after a digit; the flag
records a pending underscore, which must be followed by a digit. -/
def pyDigitTail (cs : List Char) : Bool := pyDigitTailAux false cs

/-- A nonempty digit string in Python's `int` grammar (after sign removal). -/
def pyDigitsValid : List Char → Bool
  | [] => false
  | c :: rest => c.isDigit && pyDigitTail rest

/-- Numeric value of a digit string, ignoring underscores. -/
def pyDigitsVal (cs : List Char) : Nat :=
  (cs.filter (fun c => c ≠ '_')).foldl (fun a c => a * 10 + (c.toNat - 48)) 0

/-- Python's `str.strip()` of whitespace, on character lists. -/
def stripChars (cs : List Char) : List Char :=
  (((cs.dropWhile Char.isWhitespace).reverse).dropWhile Char.isWhitespace).reverse

/-- Sign-and-digits part of Python's `int(s)` grammar, after stripping. -/
def pyIntParseCore : List Char → Option Int
  | [] => none
  | c :: rest =>
    if c = '+' then
      if pyDigitsValid rest then some ((pyDigitsVal rest : Nat) : Int) else none
    else if c = '-' then
      if pyDigitsValid rest then some (-((pyDigitsVal rest : Nat) : Int)) else none
    else
      if pyDigitsValid (c :: rest) then some ((pyDigitsVal (c :: rest) : Nat) : Int)
      else none

/-- Model of Python `int(s)`: strip whitespace, optional sign, digit
grammar with underscores; `none` when `int` would raise `ValueError`. -/
def pyIntParse (s : String) : Option Int :=
  pyIntParseCore (stripChars s.data)

/-- Decimal digits, most significant first; `fuel` bounds the recursion depth. -/
def natDigitsAux (fuel : Nat) (n : Nat) : List Char :=
  match fuel with
  | 0 => []
  | fuel + 1 =>
    if n < 10 then [Char.ofNat (48 + n)]
    else natDigitsAux fuel (n / 10) ++ [Char.ofNat (48 + n % 10)]

/-- Decimal digits of a natural number, most significant first. -/
def natDigits (n : Nat) : List Char := natDigitsAux (n + 1) n

/-- Model of Python `str(n)` for an int: decimal text with `-` sign. -/
def pyStr (n : Int) : String :=
  if n < 0 then String.mk ('-' :: natDigits n.natAbs) else String.mk (natDigits n.natAbs)

example : pyIntParse "0" = some 0 := by decide
example : pyIntParse "-5" = some (-5) := by decide
example : pyIntParse " 42 " = some 42 := by decide
example : pyIntParse "abc" = none := by decide
example : pyIntParse "" = none := by decide
example : pyIntParse "1_0" = some 10 := by decide
example : pyIntParse "1__0" = none := by decide
example : pyStr (-17) = "-17" := by decide
example : pyStr 230 = "230" := by decide

/-! ### Request/response schemas -/

/-- Pydantic `CompleteLevelIn`; `Field(ge=0)` bounds are the predicate `valid`. -/
structure CompleteLevelIn where
  coins_earned : Int
  time_spent : Int
  deriving Repr, DecidableEq

/-- The `Field(ge=0)` constraints enforced at the HTTP boundary. -/
def CompleteLevelIn.valid (d : CompleteLevelIn) : Prop :=
  0 ≤ d.coins_earned ∧ 0 ≤ d.time_spent

/-- Pydantic `RegisterIn` (school/gender re-checked in the endpoint body). -/
structure RegisterIn where
  document : String
  name : String
  school : String
  gender : String
  deriving Repr, DecidableEq

/-- Pydantic `UpdateMeIn`: all fields optional. -/
structure UpdateMeIn where
  name : Option String
  school : Option String
  gender : Option String
  money : Option String
  level : Option Int
  deriving Repr, DecidableEq

/-- The pydantic boundary constraint on `UpdateMeIn.level` (`Field(ge=1)`);
no constraint exists on `money`. -/
def UpdateMeIn.valid (d : UpdateMeIn) : Prop :=
  ∀ l, d.level = some l → 1 ≤ l

/-- Pydantic `UserOut` read-model (its `items` entries ≅ catalog rows). -/
structure UserOut where
  id : Nat
  document : String
  name : String
  school : String
  gender : String
  money : String
  level : Int
  items : List ItemModel
  deriving Repr, DecidableEq

/-- An `HTTPException(code, detail)` raised by an endpoint. -/
structure HttpError where
  code : Nat
  detail : String
  deriving Repr, DecidableEq

/-! ### Session helpers -/

/-- `timedelta(days=7)`, in seconds. -/
def sessionTtl : Int := 7 * 24 * 60 * 60

/-- `create_session`: the fresh random token (`secrets.token_urlsafe(32)`)
is passed in by the caller; stores a session expiring 7 days from `now`. -/
def create_session (db : DB) (user_id : Nat) (token : String) (now : Int) :
    DB × String :=
  ({ db with sessions := db.sessions ++ [⟨user_id, token, now + sessionTtl⟩] }, token)

/-- `user_by_token`: find a session with this token and strictly future
expiry, then resolve its owning user row. -/
def user_by_token (db : DB) (token : String) (now : Int) : Option User :=
  match db.sessions.find? (fun s => decide (s.token = token ∧ now < s.expires_at)) with
  | none => none
  | some sess => db.users.find? (fun u => decide (u.id = sess.user_id))

/-! ### Read-model assembly -/

/-- `db.query(ItemModel).join(UserEarnedItem).filter(UserEarnedItem.user_id == uid)`:
one catalog item per earned link of this user. -/
def earnedItemsOf (db : DB) (uid : Nat) : List ItemModel :=
  (db.earned.filter (fun e => decide (e.user_id = uid))).filterMap
    (fun e => db.items.find? (fun it => decide (it.id = e.item_id)))

/-- The `UserOut` constructed manually by `login`, `me` and `complete_level`. -/
def assemble (db : DB) (u : User) : UserOut :=
  ⟨u.id, u.document, u.name, u.school, u.gender, u.money, u.level,
   earnedItemsOf db u.id⟩

/-! ### Endpoints -/

/-- `POST /auth/register` body: enum checks, duplicate-document check,
insert of a fresh row with `level=1` and the column default `money="0"`.
`newId` is the autoincrement primary key chosen by the store. -/
def register (db : DB) (payload : RegisterIn) (newId : Nat) :
    Except HttpError (DB × User) :=
  if payload.school ∉ SCHOOL_VALUES then .error ⟨400, "school inválido"⟩
  else if payload.gender ∉ GENDER_VALUES then .error ⟨400, "gender inválido"⟩
  else if (db.users.find? (fun u => decide (u.document = payload.document))).isSome then
    .error ⟨400, "Documento ya registrado"⟩
  else
    let user : User :=
      ⟨newId, payload.document, payload.name, payload.school, payload.gender, "0", 1⟩
    .ok ({ db with users := db.users ++ [user] }, user)

/-- `POST /auth/login` body: look up by document, issue a session,
return token plus assembled view. -/
def login (db : DB) (document : String) (token : String) (now : Int) :
    Except HttpError (DB × String × UserOut) :=
  match db.users.find? (fun u => decide (u.document = document)) with
  | none => .error ⟨404, "Usuario no encontrado; regístrese primero"⟩
  | some user =>
    let p := create_session db user.id token now
    .ok (p.1, p.2, assemble p.1 user)

/-- `POST /auth/logout` body: delete sessions matching the token, return
the deleted row count. -/
def logout (db : DB) (token : String) : DB × Nat :=
  ({ db with sessions := db.sessions.filter (fun s => !(decide (s.token = token))) },
   (db.sessions.filter (fun s => decide (s.token = token))).length)

/-- Committing a mutated ORM `users` row: replace the row with its id. -/
def commitUser (db : DB) (u : User) : DB :=
  { db with users := db.users.map (fun v => if v.id = u.id then u else v) }

/-- `POST /me/complete-level` body, for the authenticated row `current`:
cap-at-5 level bump, currency parse/add/re-store, time record for
`level - 1` after the bump, reward lookup for that same level, idempotent
grant (the `already_has` queries see only stored rows: `autoflush=False`),
single commit, refreshed read-model. -/
def complete_level (db : DB) (current : User) (data : CompleteLevelIn) :
    Except HttpError (DB × UserOut) :=
  let lvl : Int := if current.level < 5 then current.level + 1 else current.level
  match pyIntParse current.money with
  | none => .error ⟨500, "Formato inválido en campo 'money'"⟩
  | some current_money =>
    let newUser : User :=
      { current with level := lvl, money := pyStr (current_money + data.coins_earned) }
    let timeRecord : UserTime := ⟨current.id, data.time_spent, lvl - 1⟩
    let rewards := LEVEL_REWARDS (lvl - 1)
    let items_to_add := db.items.filter (fun it => decide (it.name ∈ rewards))
    let adds := (items_to_add.filter (fun it =>
        !(db.earned.any (fun e => decide (e.user_id = current.id ∧ e.item_id = it.id))))).map
      (fun it => UserEarnedItem.mk current.id it.id)
    let db1 : DB := { commitUser db newUser with
        times := db.times ++ [timeRecord],
        earned := db.earned ++ adds }
    .ok (db1, assemble db1 newUser)

/-- `update_me` staged mutation: name (no validation, staged first). -/
def applyName (d : UpdateMeIn) (u : User) : User :=
  match d.name with
  | some n => { u with name := n }
  | none => u

/-- `update_me` staged mutation: school, validated against the enum. -/
def applySchool (d : UpdateMeIn) (u : User) : Except HttpError User :=
  match d.school with
  | none => .ok u
  | some s =>
    if s ∈ SCHOOL_VALUES then .ok { u with school := s }
    else .error ⟨400, "school inválido"⟩

/-- `update_me` staged mutation: gender, validated against the enum. -/
def applyGender (d : UpdateMeIn) (u : User) : Except HttpError User :=
  match d.gender with
  | none => .ok u
  | some g =>
    if g ∈ GENDER_VALUES then .ok { u with gender := g }
    else .error ⟨400, "gender inválido"⟩

/-- `update_me` staged mutation: money, stored verbatim, no validation. -/
def applyMoney (d : UpdateMeIn) (u : User) : User :=
  match d.money with
  | some m => { u with money := m }
  | none => u

/-- `update_me` staged mutation: level, set directly, no cap logic. -/
def applyLevel (d : UpdateMeIn) (u : User) : User :=
  match d.level with
  | some l => { u with level := l }
  | none => u

/-- `PUT /me` body: staged field mutations in source order with enum
validation; on success a single commit, on error no commit (rollback). -/
def update_me (db : DB) (current : User) (data : UpdateMeIn) :
    Except HttpError (DB × User) :=
  match applySchool data (applyName data current) with
  | .error e => .error e
  | .ok u2 =>
    match applyGender data u2 with
    | .error e => .error e
    | .ok u3 =>
      let u5 := applyLevel data (applyMoney data u3)
      .ok (commitUser db u5, u5)

/-! ### Committed-state endpoint steps (transaction semantics) -/

/-- The user row with this id, as `query(User).get` sees it. -/
def userById (db : DB) (uid : Nat) : Option User :=
  db.users.find? (fun u => decide (u.id = uid))

/-- One authenticated `POST /me/complete-level` call for user `uid`; an
error means the transaction never commits, leaving the store unchanged. -/
def completeLevelStep (db : DB) (uid : Nat) (d : CompleteLevelIn) : DB :=
  match userById db uid with
  | none => db
  | some u =>
    match complete_level db u d with
    | .ok p => p.1
    | .error _ => db

/-- A sequence of `complete-level` calls for the same user. -/
def runCompleteLevels (db : DB) (uid : Nat) (ds : List CompleteLevelIn) : DB :=
  ds.foldl (fun db d => completeLevelStep db uid d) db

/-- One authenticated `PUT /me` call for user `uid`; an error means the
transaction never commits, leaving the store unchanged. -/
def updateMeStep (db : DB) (uid : Nat) (d : UpdateMeIn) : DB :=
  match userById db uid with
  | none => db
  | some u =>
    match update_me db u d with
    | .ok p => p.1
    | .error _ => db

/-! ### Response-model serialization (`response_model=UserOut` on a raw ORM row) -/

/-- A Python attribute value as read by pydantic `from_attributes`. -/
inductive AttrVal where
  | natV : Nat → AttrVal
  | intV : Int → AttrVal
  | strV : String → AttrVal
  | itemsV : List ItemModel → AttrVal
  deriving Repr, DecidableEq

/-- Attribute lookup on an ORM `User` object: exactly the mapped columns
of `class User`; no `items` attribute or relationship is defined. -/
def User.getattr (u : User) : String → Option AttrVal
  | "id" => some (.natV u.id)
  | "document" => some (.strV u.document)
  | "name" => some (.strV u.name)
  | "school" => some (.strV u.school)
  | "gender" => some (.strV u.gender)
  | "money" => some (.strV u.money)
  | "level" => some (.intV u.level)
  | _ => none

/-- Pydantic validation of `UserOut` from an object's attributes, as
FastAPI's `response_model=UserOut` applies it to a returned ORM object:
every declared field, `items` included, must be present and well-typed. -/
def userOutValidate (get : String → Option AttrVal) : Option UserOut :=
  match get "id", get "document", get "name", get "school", get "gender",
        get "money", get "level", get "items" with
  | some (.natV i), some (.strV d), some (.strV n), some (.strV s),
    some (.strV g), some (.strV m), some (.intV l), some (.itemsV its) =>
      if s ∈ SCHOOL_VALUES ∧ g ∈ GENDER_VALUES then
        some ⟨i, d, n, s, g, m, l, its⟩
      else none
  | _, _, _, _, _, _, _, _ => none

/-! ### Parser/printer lemmas -/

theorem digitChar_props {d : Nat} (hd : d < 10) :
    (Char.ofNat (48 + d)).isDigit = true ∧ Char.ofNat (48 + d) ≠ '_' ∧
    (Char.ofNat (48 + d)).isWhitespace = false ∧ Char.ofNat (48 + d) ≠ '+' ∧
    Char.ofNat (48 + d) ≠ '-' ∧ (Char.ofNat (48 + d)).toNat = 48 + d := by
  interval_cases d <;> exact ⟨by decide, by decide, by decide, by decide, by decide, by decide⟩

theorem natDigitsAux_chars {fuel n : Nat} (h : n < fuel) :
    ∀ c ∈ natDigitsAux fuel n, ∃ d, d < 10 ∧ c = Char.ofNat (48 + d) := by
  induction fuel generalizing n with
  | zero => omega
  | succ fuel ih =>
    intro c hc
    rw [natDigitsAux] at hc
    by_cases hn : n < 10
    · rw [if_pos hn] at hc
      simp only [List.mem_singleton] at hc
      exact ⟨n, hn, hc⟩
    · rw [if_neg hn] at hc
      rcases List.mem_append.mp hc with hc | hc
      · have hdiv : n / 10 < n := Nat.div_lt_self (by omega) (by omega)
        exact ih (by omega) c hc
      · simp only [List.mem_singleton] at hc
        exact ⟨n % 10, Nat.mod_lt _ (by omega), hc⟩

theorem natDigitsAux_ne_nil {fuel n : Nat} (h : n < fuel) :
    natDigitsAux fuel n ≠ [] := by
  cases fuel with
  | zero => omega
  | succ fuel =>
    rw [natDigitsAux]
    by_cases hn : n < 10
    · rw [if_pos hn]; simp
    · rw [if_neg hn]; simp

theorem pyDigitTail_of_digits {cs : List Char}
    (h : ∀ c ∈ cs, c.isDigit = true ∧ c ≠ '_') : pyDigitTail cs = true := by
  induction cs with
  | nil => rfl
  | cons c rest ih =>
    have hc := h c (List.mem_cons_self _ _)
    simp only [pyDigitTail, pyDigitTailAux, if_neg hc.2, Bool.and_eq_true]
    exact ⟨hc.1, ih fun x hx => h x (List.mem_cons_of_mem _ hx)⟩

theorem pyDigitsValid_of_digits {cs : List Char} (hne : cs ≠ [])
    (h : ∀ c ∈ cs, c.isDigit = true ∧ c ≠ '_') : pyDigitsValid cs = true := by
  cases cs with
  | nil => exact absurd rfl hne
  | cons c rest =>
    simp only [pyDigitsValid, Bool.and_eq_true]
    exact ⟨(h c (List.mem_cons_self _ _)).1,
       pyDigitTail_of_digits fun x hx => h x (List.mem_cons_of_mem _ hx)⟩

theorem pyDigitsVal_append_digit {cs : List Char} {c : Char} (hc : c ≠ '_') :
    pyDigitsVal (cs ++ [c]) = pyDigitsVal cs * 10 + (c.toNat - 48) := by
  unfold pyDigitsVal
  rw [List.filter_append, List.foldl_append]
  have : List.filter (fun c => decide (c ≠ '_')) [c] = [c] := by
    simp [List.filter, hc]
  rw [this]
  rfl

theorem natDigitsAux_val {fuel n : Nat} (h : n < fuel) :
    pyDigitsVal (natDigitsAux fuel n) = n := by
  induction fuel generalizing n with
  | zero => omega
  | succ fuel ih =>
    rw [natDigitsAux]
    by_cases hn : n < 10
    · rw [if_pos hn]
      have hp := digitChar_props hn
      unfold pyDigitsVal
      rw [List.filter_cons_of_pos (by simp [hp.2.1])]
      simp only [List.filter_nil, List.foldl_cons, List.foldl_nil]
      rw [hp.2.2.2.2.2]
      omega
    · rw [if_neg hn]
      have hdiv : n / 10 < n := Nat.div_lt_self (by omega) (by omega)
      have hm : n % 10 < 10 := Nat.mod_lt _ (by omega)
      have hp := digitChar_props hm
      rw [pyDigitsVal_append_digit hp.2.1, ih (by omega), hp.2.2.2.2.2]
      omega

theorem natDigits_chars {n : Nat} :
    ∀ c ∈ natDigits n, ∃ d, d < 10 ∧ c = Char.ofNat (48 + d) :=
  natDigitsAux_chars (Nat.lt_succ_self n)

theorem natDigits_ne_nil {n : Nat} : natDigits n ≠ [] :=
  natDigitsAux_ne_nil (Nat.lt_succ_self n)

theorem natDigits_val {n : Nat} : pyDigitsVal (natDigits n) = n :=
  natDigitsAux_val (Nat.lt_succ_self n)

theorem dropWhile_eq_self_of_not {cs : List Char}
    (h : ∀ c ∈ cs, Char.isWhitespace c = false) :
    cs.dropWhile Char.isWhitespace = cs := by
  cases cs with
  | nil => rfl
  | cons c rest => rw [List.dropWhile_cons, h c (List.mem_cons_self _ _)]; simp

theorem stripChars_eq_self {cs : List Char}
    (h : ∀ c ∈ cs, Char.isWhitespace c = false) : stripChars cs = cs := by
  unfold stripChars
  rw [dropWhile_eq_self_of_not h,
      dropWhile_eq_self_of_not (fun c hc => h c (List.mem_reverse.mp hc)),
      List.reverse_reverse]

theorem stripChars_natDigits {n : Nat} : stripChars (natDigits n) = natDigits n := by
  refine stripChars_eq_self fun c hc => ?_
  obtain ⟨d, hd, rfl⟩ := natDigits_chars c hc
  exact (digitChar_props hd).2.2.1

/-- Round trip of the Python models: `int(str(n)) == n`. -/
theorem pyIntParse_pyStr (n : Int) : pyIntParse (pyStr n) = some n := by
  have hdig : ∀ c ∈ natDigits n.natAbs, c.isDigit = true ∧ c ≠ '_' := by
    intro c hc
    obtain ⟨d, hd, rfl⟩ := natDigits_chars c hc
    exact ⟨(digitChar_props hd).1, (digitChar_props hd).2.1⟩
  by_cases hneg : n < 0
  · rw [pyStr, if_pos hneg]
    show pyIntParseCore (stripChars ('-' :: natDigits n.natAbs)) = some n
    have hstrip : stripChars ('-' :: natDigits n.natAbs) = '-' :: natDigits n.natAbs := by
      refine stripChars_eq_self fun c hc => ?_
      rcases List.mem_cons.mp hc with rfl | hc
      · decide
      · obtain ⟨d, hd, rfl⟩ := natDigits_chars c hc
        exact (digitChar_props hd).2.2.1
    rw [hstrip]
    simp only [pyIntParseCore]
    rw [if_neg (by decide), if_pos (by trivial),
        if_pos (pyDigitsValid_of_digits natDigits_ne_nil hdig)]
    rw [natDigits_val]
    congr 1
    omega
  · rw [pyStr, if_neg hneg]
    show pyIntParseCore (stripChars (natDigits n.natAbs)) = some n
    rw [stripChars_natDigits]
    obtain ⟨c, rest, hcr⟩ := List.exists_cons_of_ne_nil (natDigits_ne_nil (n := n.natAbs))
    rw [hcr]
    have hc : c ∈ natDigits n.natAbs := by rw [hcr]; exact List.mem_cons_self _ _
    obtain ⟨d, hd, rfl⟩ := natDigits_chars c hc
    simp only [pyIntParseCore]
    rw [if_neg ((digitChar_props hd).2.2.2.1), if_neg ((digitChar_props hd).2.2.2.2.1)]
    rw [← hcr, if_pos (pyDigitsValid_of_digits natDigits_ne_nil hdig), natDigits_val]
    congr 1
    omega

/-! ### Concrete store states used to evaluate the theorems -/

/-- Catalog seeded with the eight configured reward items. -/
def itemsEx : List ItemModel :=
  [⟨1, "cinturon", "equip"⟩, ⟨2, "cristal-rojo", "crystal"⟩,
   ⟨3, "pechera", "equip"⟩, ⟨4, "cristal-amarillo", "crystal"⟩,
   ⟨5, "botas", "equip"⟩, ⟨6, "cristal-gris", "crystal"⟩,
   ⟨7, "casco", "equip"⟩, ⟨8, "cristal-verde", "crystal"⟩]

/-- A freshly registered player. -/
def uEx : User := ⟨1, "A1", "Ana", "Aguachica", "Masculino", "0", 1⟩

/-- A store with one player, one live session and the seeded catalog. -/
def dbEx : DB := ⟨[uEx], [⟨1, "tok", 1000⟩], itemsEx, [], []⟩

/-- A store with two live sessions of the same player. -/
def dbL : DB := ⟨[], [⟨1, "tok", 1000⟩, ⟨1, "tok2", 1000⟩], [], [], []⟩

/-! ### Small lemmas about the endpoint bodies -/

theorem applySchool_invalid {d : UpdateMeIn} {s : String} (hs : d.school = some s)
    (hinv : s ∉ SCHOOL_VALUES) (u : User) :
    applySchool d u = .error ⟨400, "school inválido"⟩ := by
  unfold applySchool
  rw [hs]
  simp [hinv]

theorem length_filter_token_eq_one {l : List SessionToken} {t : String}
    (hnd : (l.map SessionToken.token).Nodup) (hex : ∃ s ∈ l, s.token = t) :
    (l.filter (fun s => decide (s.token = t))).length = 1 := by
  induction l with
  | nil => simp at hex
  | cons a l ih =>
    rw [List.map_cons, List.nodup_cons] at hnd
    by_cases hat : a.token = t
    · rw [List.filter_cons_of_pos (by simp [hat])]
      have hnil : l.filter (fun s => decide (s.token = t)) = [] := by
        rw [List.filter_eq_nil_iff]
        intro s hsl
        simp only [decide_eq_true_eq]
        intro hst
        have hmem : s.token ∈ l.map SessionToken.token := List.mem_map_of_mem _ hsl
        rw [hst, ← hat] at hmem
        exact hnd.1 hmem
      rw [hnil]
      rfl
    · rw [List.filter_cons_of_neg (by simp [hat])]
      refine ih hnd.2 ?_
      obtain ⟨s, hsl, hst⟩ := hex
      rcases List.mem_cons.mp hsl with rfl | hsl
      · exact absurd hst hat
      · exact ⟨s, hsl, hst⟩

theorem filter_not_token_idem (l : List SessionToken) (t : String) :
    (l.filter (fun s => !(decide (s.token = t)))).filter (fun s => !(decide (s.token = t)))
      = l.filter (fun s => !(decide (s.token = t))) := by
  rw [List.filter_filter]
  refine List.filter_congr fun s _ => ?_
  rw [Bool.and_self]

theorem filter_token_after_not (l : List SessionToken) (t : String) :
    (l.filter (fun s => !(decide (s.token = t)))).filter (fun s => decide (s.token = t)) = [] := by
  rw [List.filter_filter, List.filter_eq_nil_iff]
  intro s _
  simp

theorem userById_some_id {db : DB} {uid : Nat} {u : User} (h : userById db uid = some u) :
    u.id = uid := by
  have := List.find?_some h
  simpa using this

theorem userById_isSome {db : DB} {uid : Nat} {u : User} (h : userById db uid = some u) :
    (db.users.find? (fun v => decide (v.id = uid))).isSome := by
  unfold userById at h
  rw [h]
  rfl

theorem find?_id_map_replace {l : List User} {uid : Nat} (w : User) (hw : w.id = uid)
    (h : (l.find? (fun v => decide (v.id = uid))).isSome) :
    (l.map (fun v => if v.id = w.id then w else v)).find? (fun v => decide (v.id = uid))
      = some w := by
  induction l with
  | nil => simp at h
  | cons a l ih =>
    rw [List.map_cons]
    by_cases ha : a.id = uid
    · rw [if_pos (by rw [hw, ha])]
      exact List.find?_cons_of_pos _ (by simp [hw])
    · rw [if_neg (by rw [hw]; exact ha)]
      rw [List.find?_cons_of_neg _ (by simp [ha])]
      refine ih ?_
      rwa [List.find?_cons_of_neg _ (by simp [ha])] at h

theorem userById_commitUser {db : DB} {uid : Nat} {u : User} (hu : userById db uid = some u)
    (w : User) (hw : w.id = uid) : userById (commitUser db w) uid = some w := by
  unfold userById commitUser
  exact find?_id_map_replace w hw (userById_isSome hu)

/-- `userById` ignores the `times` and `earned` tables. -/
theorem userById_override (db : DB) (ts : List UserTime) (es : List UserEarnedItem)
    (uid : Nat) : userById { db with times := ts, earned := es } uid = userById db uid := rfl

/-- Successful `complete_level`: the exact committed state and response. -/
theorem complete_level_ok_spec {db : DB} {u : User} {d : CompleteLevelIn} {m : Int}
    (hm : pyIntParse u.money = some m) :
    ∃ db1, complete_level db u d =
      .ok (db1, assemble db1
        { u with level := if u.level < 5 then u.level + 1 else u.level,
                 money := pyStr (m + d.coins_earned) }) ∧
    db1 = { commitUser db
        { u with level := if u.level < 5 then u.level + 1 else u.level,
                 money := pyStr (m + d.coins_earned) } with
      times := db.times ++
        [⟨u.id, d.time_spent, (if u.level < 5 then u.level + 1 else u.level) - 1⟩],
      earned := db.earned ++ ((db.items.filter (fun it =>
          decide (it.name ∈ LEVEL_REWARDS ((if u.level < 5 then u.level + 1 else u.level) - 1)))).filter
          (fun it => !(db.earned.any (fun e => decide (e.user_id = u.id ∧ e.item_id = it.id))))).map
        (fun it => UserEarnedItem.mk u.id it.id) } := by
  refine ⟨_, ?_, rfl⟩
  unfold complete_level
  rw [hm]

/-- `complete_level` errors exactly on an unparsable stored balance. -/
theorem complete_level_error_iff (db : DB) (u : User) (d : CompleteLevelIn) :
    complete_level db u d = .error ⟨500, "Formato inválido en campo 'money'"⟩ ↔
      pyIntParse u.money = none := by
  constructor
  · intro h
    cases hp : pyIntParse u.money with
    | none => rfl
    | some m =>
      obtain ⟨db1, hok, _⟩ := complete_level_ok_spec hp
      rw [hok] at h
      exact absurd h (by simp)
  · intro hp
    unfold complete_level
    rw [hp]

/-- Any error of `complete_level` is the 500 currency error. -/
theorem complete_level_error_shape {db : DB} {u : User} {d : CompleteLevelIn} {e : HttpError}
    (h : complete_level db u d = .error e) :
    e = ⟨500, "Formato inválido en campo 'money'"⟩ ∧ pyIntParse u.money = none := by
  cases hp : pyIntParse u.money with
  | none =>
    have h' := (complete_level_error_iff db u d).mpr hp
    rw [h'] at h
    simp only [Except.error.injEq] at h
    exact ⟨h.symm, rfl⟩
  | some m =>
    obtain ⟨db1, hok, _⟩ := complete_level_ok_spec hp
    rw [hok] at h
    exact absurd h (by simp)

theorem completeLevelStep_eq_of_ok {db : DB} {uid : Nat} {u : User} {d : CompleteLevelIn}
    {db1 : DB} {out : UserOut} (hu : userById db uid = some u)
    (hok : complete_level db u d = .ok (db1, out)) :
    completeLevelStep db uid d = db1 := by
  unfold completeLevelStep
  rw [hu]
  simp only [hok]

theorem completeLevelStep_eq_of_error {db : DB} {uid : Nat} {u : User} {d : CompleteLevelIn}
    {e : HttpError} (hu : userById db uid = some u)
    (herr : complete_level db u d = .error e) :
    completeLevelStep db uid d = db := by
  unfold completeLevelStep
  rw [hu]
  simp only [herr]

/-- Level part of the sequence invariant for `complete-level` calls. -/
theorem runCompleteLevels_level_bound {uid : Nat} (ds : List CompleteLevelIn) :
    ∀ (db : DB) (u : User), userById db uid = some u → 1 ≤ u.level → u.level ≤ 5 →
    ∃ w, userById (runCompleteLevels db uid ds) uid = some w ∧
      u.level ≤ w.level ∧ w.level ≤ 5 := by
  induction ds with
  | nil => exact fun db u hu h1 h5 => ⟨u, hu, le_refl _, h5⟩
  | cons d ds ih =>
    intro db u hu h1 h5
    cases hp : pyIntParse u.money with
    | none =>
      have hstep : completeLevelStep db uid d = db :=
        completeLevelStep_eq_of_error hu ((complete_level_error_iff db u d).mpr hp)
      unfold runCompleteLevels
      rw [List.foldl_cons, hstep]
      exact ih db u hu h1 h5
    | some m =>
      obtain ⟨db1, hok, hdb1⟩ := complete_level_ok_spec hp
      have hstep : completeLevelStep db uid d = db1 := completeLevelStep_eq_of_ok hu hok
      set nu : User :=
        { u with level := if u.level < 5 then u.level + 1 else u.level,
                 money := pyStr (m + d.coins_earned) } with hnu
      have hid0 : u.id = uid := userById_some_id hu
      have hid : nu.id = uid := hid0
      have hu1 : userById db1 uid = some nu := by
        rw [hdb1, userById_override]
        exact userById_commitUser hu nu hid
      have hlev : nu.level = if u.level < 5 then u.level + 1 else u.level := rfl
      have h1' : 1 ≤ nu.level := by rw [hlev]; split <;> omega
      have h5' : nu.level ≤ 5 := by rw [hlev]; split <;> omega
      obtain ⟨w, hw, hle, hle5⟩ := ih db1 nu hu1 h1' h5'
      refine ⟨w, ?_, ?_, hle5⟩
      · unfold runCompleteLevels
        rw [List.foldl_cons, hstep]
        exact hw
      · refine le_trans ?_ hle
        rw [hlev]
        split <;> omega

/-! ### Claim theorems -/

/-- C1: a `complete_level` call with non-negative coins and time on a
parsable balance increments the level by exactly 1 when `level < 5` and
leaves it unchanged at the cap, while the currency addition and the time
record are applied in both cases; and over any sequence of such calls the
committed level never decreases and never exceeds 5 when it starts in
1..5. -/
theorem completeLevel_transition_and_cap :
    (∀ (db : DB) (u : User) (d : CompleteLevelIn) (m : Int), d.valid →
      pyIntParse u.money = some m →
      ∃ db1 out, complete_level db u d = .ok (db1, out) ∧
        out.level = (if u.level < 5 then u.level + 1 else u.level) ∧
        out.money = pyStr (m + d.coins_earned) ∧
        db1.times = db.times ++ [⟨u.id, d.time_spent, out.level - 1⟩]) ∧
    (∀ (db : DB) (uid : Nat) (ds : List CompleteLevelIn) (u : User),
      userById db uid = some u → 1 ≤ u.level → u.level ≤ 5 →
      ∃ w, userById (runCompleteLevels db uid ds) uid = some w ∧
        u.level ≤ w.level ∧ w.level ≤ 5) := by
  constructor
  · intro db u d m _ hm
    obtain ⟨db1, hok, hdb1⟩ := complete_level_ok_spec hm
    refine ⟨db1, _, hok, rfl, rfl, ?_⟩
    rw [hdb1]
    rfl
  · intro db uid ds u hu h1 h5
    exact runCompleteLevels_level_bound ds db u hu h1 h5

/-- Witness for C1: one call at level 1 bumps the level to 2 and records
money and time; two calls starting from `dbEx` keep the level in 1..5. -/
theorem completeLevel_transition_and_cap_witness :
    (∃ db1 out, complete_level dbEx uEx ⟨10, 30⟩ = .ok (db1, out) ∧
      out.level = (if uEx.level < 5 then uEx.level + 1 else uEx.level) ∧
      out.money = pyStr (0 + 10) ∧
      db1.times = dbEx.times ++ [⟨uEx.id, 30, out.level - 1⟩]) ∧
    (∃ w, userById (runCompleteLevels dbEx 1 [⟨10, 30⟩, ⟨5, 2⟩]) 1 = some w ∧
      uEx.level ≤ w.level ∧ w.level ≤ 5) :=
  ⟨completeLevel_transition_and_cap.1 dbEx uEx ⟨10, 30⟩ 0 ⟨by decide, by decide⟩ (by decide),
   completeLevel_transition_and_cap.2 dbEx 1 [⟨10, 30⟩, ⟨5, 2⟩] uEx
     (by decide) (by decide) (by decide)⟩

/-- C7: starting from a balance that parses as `m0`, after any sequence of
`complete-level` calls with coin amounts `c1..cN` (each ≥ 0) the committed
balance parses as exactly `m0 + Σci`, and for `N ≥ 1` it is stored as the
decimal text of that exact integer — Python integers, no overflow. -/
theorem completeLevel_currency_sum :
    ∀ (ds : List CompleteLevelIn) (db : DB) (uid : Nat) (u : User) (m0 : Int),
      userById db uid = some u → pyIntParse u.money = some m0 →
      (∀ d ∈ ds, 0 ≤ d.coins_earned) →
      ∃ w, userById (runCompleteLevels db uid ds) uid = some w ∧
        pyIntParse w.money = some (m0 + (ds.map CompleteLevelIn.coins_earned).sum) ∧
        (ds ≠ [] → w.money = pyStr (m0 + (ds.map CompleteLevelIn.coins_earned).sum)) := by
  intro ds
  induction ds with
  | nil =>
    intro db uid u m0 hu hm _
    exact ⟨u, hu, by simpa using hm, fun h => absurd rfl h⟩
  | cons d ds ih =>
    intro db uid u m0 hu hm hc
    obtain ⟨db1, hok, hdb1⟩ := complete_level_ok_spec hm
    have hstep : completeLevelStep db uid d = db1 := completeLevelStep_eq_of_ok hu hok
    set nu : User :=
      { u with level := if u.level < 5 then u.level + 1 else u.level,
               money := pyStr (m0 + d.coins_earned) } with hnu
    have hid0 : u.id = uid := userById_some_id hu
    have hid : nu.id = uid := hid0
    have hu1 : userById db1 uid = some nu := by
      rw [hdb1, userById_override]
      exact userById_commitUser hu nu hid
    have hm1 : pyIntParse nu.money = some (m0 + d.coins_earned) :=
      pyIntParse_pyStr (m0 + d.coins_earned)
    obtain ⟨w, hw, hwm, hwtext⟩ :=
      ih db1 uid nu (m0 + d.coins_earned) hu1 hm1
        (fun x hx => hc x (List.mem_cons_of_mem _ hx))
    have hsum : m0 + d.coins_earned + (ds.map CompleteLevelIn.coins_earned).sum =
        m0 + ((d :: ds).map CompleteLevelIn.coins_earned).sum := by
      rw [List.map_cons, List.sum_cons]
      ring
    refine ⟨w, ?_, ?_, fun _ => ?_⟩
    · unfold runCompleteLevels
      rw [List.foldl_cons, hstep]
      exact hw
    · rw [hwm, hsum]
    · by_cases hds : ds = []
      · subst hds
        have hweq : w = nu := by
          have : userById db1 uid = some w := hw
          rw [hu1] at this
          exact (Option.some.injEq _ _).mp this.symm
        rw [hweq]
        show pyStr (m0 + d.coins_earned) = pyStr (m0 + ([d].map CompleteLevelIn.coins_earned).sum)
        congr 1
        simp
      · rw [hwtext hds, hsum]

/-- The (player, item) pairs stored in the earned-items table. -/
def earnedPairs (db : DB) : List (Nat × Nat) :=
  db.earned.map (fun e => (e.user_id, e.item_id))

/-- A `complete-level` call never touches the item catalog. -/
theorem completeLevelStep_items (db : DB) (uid : Nat) (d : CompleteLevelIn) :
    (completeLevelStep db uid d).items = db.items := by
  cases hu : userById db uid with
  | none => unfold completeLevelStep; rw [hu]
  | some u =>
    cases hp : pyIntParse u.money with
    | none =>
      rw [completeLevelStep_eq_of_error hu ((complete_level_error_iff db u d).mpr hp)]
    | some m =>
      obtain ⟨db1, hok, hdb1⟩ := complete_level_ok_spec hp
      rw [completeLevelStep_eq_of_ok hu hok, hdb1]
      rfl

/-- One `complete-level` call preserves the at-most-one-link invariant of
the earned-items table (with the catalog's primary keys unique). -/
theorem completeLevelStep_earned_nodup {db : DB} (uid : Nat) (d : CompleteLevelIn)
    (hitems : (db.items.map ItemModel.id).Nodup)
    (hnd : (earnedPairs db).Nodup) :
    (earnedPairs (completeLevelStep db uid d)).Nodup := by
  cases hu : userById db uid with
  | none => unfold completeLevelStep; rw [hu]; exact hnd
  | some u =>
    cases hp : pyIntParse u.money with
    | none =>
      rw [completeLevelStep_eq_of_error hu ((complete_level_error_iff db u d).mpr hp)]
      exact hnd
    | some m =>
      obtain ⟨db1, hok, hdb1⟩ := complete_level_ok_spec hp
      have hearned : (completeLevelStep db uid d).earned = db.earned ++
          ((db.items.filter (fun it =>
            decide (it.name ∈ LEVEL_REWARDS ((if u.level < 5 then u.level + 1 else u.level) - 1)))).filter
            (fun it => !(db.earned.any (fun e => decide (e.user_id = u.id ∧ e.item_id = it.id))))).map
          (fun it => UserEarnedItem.mk u.id it.id) := by
        rw [completeLevelStep_eq_of_ok hu hok, hdb1]
      unfold earnedPairs
      rw [hearned, List.map_append, List.nodup_append]
      refine ⟨hnd, ?_, ?_⟩
      · rw [List.map_map]
        have hsub : ((db.items.filter (fun it =>
            decide (it.name ∈ LEVEL_REWARDS ((if u.level < 5 then u.level + 1 else u.level) - 1)))).filter
            (fun it => !(db.earned.any (fun e => decide (e.user_id = u.id ∧ e.item_id = it.id))))).Sublist
            db.items :=
          (List.filter_sublist _).trans (List.filter_sublist _)
        have hids : (((db.items.filter (fun it =>
            decide (it.name ∈ LEVEL_REWARDS ((if u.level < 5 then u.level + 1 else u.level) - 1)))).filter
            (fun it => !(db.earned.any (fun e => decide (e.user_id = u.id ∧ e.item_id = it.id))))).map
            ItemModel.id).Nodup :=
          hitems.sublist (hsub.map ItemModel.id)
        have : ((fun e : UserEarnedItem => (e.user_id, e.item_id)) ∘
            (fun it : ItemModel => UserEarnedItem.mk u.id it.id)) =
            ((fun i : Nat => (u.id, i)) ∘ ItemModel.id) := rfl
        rw [this, ← List.map_map]
        exact hids.map fun a b hab => by
          simpa using hab
      · intro p hp1 hp2
        rw [List.mem_map] at hp1
        obtain ⟨e, he, rfl⟩ := hp1
        rw [List.map_map, List.mem_map] at hp2
        obtain ⟨it, hit, heq⟩ := hp2
        rw [List.mem_filter] at hit
        have hnone := hit.2
        simp only [Bool.not_eq_true', List.any_eq_false, decide_eq_true_eq] at hnone
        have h1 : u.id = e.user_id := congrArg Prod.fst heq
        have h2 : it.id = e.item_id := congrArg Prod.snd heq
        exact hnone e he ⟨h1.symm, h2.symm⟩

/-- Any sequence of `complete-level` calls preserves the at-most-one-link
invariant of the earned-items table. -/
theorem runCompleteLevels_earned_nodup (ds : List CompleteLevelIn) :
    ∀ (db : DB) (uid : Nat), (db.items.map ItemModel.id).Nodup →
      (earnedPairs db).Nodup →
      (earnedPairs (runCompleteLevels db uid ds)).Nodup := by
  induction ds with
  | nil => exact fun db uid _ h => h
  | cons d ds ih =>
    intro db uid hit hnd
    unfold runCompleteLevels
    rw [List.foldl_cons]
    exact ih (completeLevelStep db uid d) uid
      (by rw [completeLevelStep_items]; exact hit)
      (completeLevelStep_earned_nodup uid d hit hnd)

/-- When every catalog item rewarded for the completed level is already
linked to the player, a further `complete_level` call leaves the
earned-items table exactly as it was. -/
theorem complete_level_no_regrant {db : DB} {u : User} {d : CompleteLevelIn} {m : Int}
    (hm : pyIntParse u.money = some m)
    (hall : ∀ it ∈ db.items,
      it.name ∈ LEVEL_REWARDS ((if u.level < 5 then u.level + 1 else u.level) - 1) →
      ∃ e ∈ db.earned, e.user_id = u.id ∧ e.item_id = it.id) :
    ∃ db1 out, complete_level db u d = .ok (db1, out) ∧ db1.earned = db.earned := by
  obtain ⟨db1, hok, hdb1⟩ := complete_level_ok_spec hm
  refine ⟨db1, _, hok, ?_⟩
  rw [hdb1]
  show db.earned ++ _ = db.earned
  have hnil : ((db.items.filter (fun it =>
      decide (it.name ∈ LEVEL_REWARDS ((if u.level < 5 then u.level + 1 else u.level) - 1)))).filter
      (fun it => !(db.earned.any (fun e => decide (e.user_id = u.id ∧ e.item_id = it.id))))) = [] := by
    rw [List.filter_eq_nil_iff]
    intro it hit
    rw [List.mem_filter] at hit
    obtain ⟨e, he, hep⟩ := hall it hit.1 (by simpa using hit.2)
    simp only [Bool.not_eq_true', List.any_eq_false, decide_eq_true_eq]
    push_neg
    exact ⟨e, he, hep⟩
  rw [hnil]
  simp

/-- A level-capped player already owning both level-4 reward items. -/
def uC2 : User := ⟨1, "A1", "Ana", "Aguachica", "Masculino", "20", 5⟩

/-- Store for the repeated-grant scenario: rewards 7 and 8 already linked. -/
def dbC2 : DB := ⟨[uC2], [], itemsEx, [⟨1, 7⟩, ⟨1, 8⟩], []⟩

/-- C2: over any sequence of `complete-level` calls the earned-items table
keeps at most one link per (player, item) pair — granting is idempotent —
and a repeated call whose completed level's rewards are all already linked
to the player leaves the earned-items table exactly unchanged. -/
theorem completeLevel_idempotent_grant :
    (∀ (db : DB) (uid : Nat) (ds : List CompleteLevelIn),
      (db.items.map ItemModel.id).Nodup → (earnedPairs db).Nodup →
      (earnedPairs (runCompleteLevels db uid ds)).Nodup) ∧
    (∀ (db : DB) (u : User) (d : CompleteLevelIn) (m : Int),
      pyIntParse u.money = some m →
      (∀ it ∈ db.items,
        it.name ∈ LEVEL_REWARDS ((if u.level < 5 then u.level + 1 else u.level) - 1) →
        ∃ e ∈ db.earned, e.user_id = u.id ∧ e.item_id = it.id) →
      ∃ db1 out, complete_level db u d = .ok (db1, out) ∧ db1.earned = db.earned) :=
  ⟨fun db uid ds hit hnd => runCompleteLevels_earned_nodup ds db uid hit hnd,
   fun _ _ _ _ hm hall => complete_level_no_regrant hm hall⟩

/-- Witness for C2: two calls leave no duplicate (player, item) link, and a
repeated call at the cap with all level-4 rewards owned grants nothing. -/
theorem completeLevel_idempotent_grant_witness :
    (earnedPairs (runCompleteLevels dbEx 1 [⟨10, 30⟩, ⟨5, 2⟩])).Nodup ∧
    ∃ db1 out, complete_level dbC2 uC2 ⟨0, 0⟩ = .ok (db1, out) ∧ db1.earned = dbC2.earned :=
  ⟨completeLevel_idempotent_grant.1 dbEx 1 [⟨10, 30⟩, ⟨5, 2⟩] (by decide) (by decide),
   completeLevel_idempotent_grant.2 dbC2 uC2 ⟨0, 0⟩ 20 (by decide) (by decide)⟩

theorem applyName_level (d : UpdateMeIn) (u : User) : (applyName d u).level = u.level := by
  unfold applyName
  cases d.name <;> rfl

theorem applySchool_level {d : UpdateMeIn} {u u2 : User} (h : applySchool d u = .ok u2) :
    u2.level = u.level := by
  unfold applySchool at h
  split at h
  · simp only [Except.ok.injEq] at h
    rw [← h]
  · split at h
    · simp only [Except.ok.injEq] at h
      rw [← h]
    · exact Except.noConfusion h

theorem applyGender_level {d : UpdateMeIn} {u u2 : User} (h : applyGender d u = .ok u2) :
    u2.level = u.level := by
  unfold applyGender at h
  split at h
  · simp only [Except.ok.injEq] at h
    rw [← h]
  · split at h
    · simp only [Except.ok.injEq] at h
      rw [← h]
    · exact Except.noConfusion h

theorem applyMoney_level (d : UpdateMeIn) (u : User) : (applyMoney d u).level = u.level := by
  unfold applyMoney
  cases d.money <;> rfl

theorem applyLevel_ge_one {d : UpdateMeIn} (hv : d.valid) (u : User) (h1 : 1 ≤ u.level) :
    1 ≤ (applyLevel d u).level := by
  unfold applyLevel
  cases hd : d.level with
  | none => exact h1
  | some l => exact hv l hd

/-- Player at the level cap with a positive stored balance. -/
def uC3 : User := ⟨1, "A1", "Ana", "Aguachica", "Masculino", "50", 5⟩

/-- Store holding only that player. -/
def dbC3 : DB := ⟨[uC3], [], [], [], []⟩

/-- The committed row after the C3 counterexample update. -/
def uC3' : User := ⟨1, "A1", "Ana", "Aguachica", "Masculino", "-5", 1⟩

/-- Counterexample to C3: a successful `update_me` call with the
pydantic-valid patch `{money: "-5", level: 1}` lowers the committed level
from 5 to 1 and stores the negative balance "-5". -/
theorem update_lowers_level_and_money_cex :
    update_me dbC3 uC3 ⟨none, none, none, some "-5", some 1⟩ =
      .ok (⟨[uC3'], [], [], [], []⟩, uC3') ∧
    uC3.level = 5 ∧ uC3'.level = 1 ∧ uC3'.money = "-5" ∧
    pyIntParse uC3'.money = some (-5) ∧
    updateMeStep dbC3 1 ⟨none, none, none, some "-5", some 1⟩ = ⟨[uC3'], [], [], [], []⟩ :=
  ⟨rfl, rfl, rfl, rfl, by decide, by decide⟩

/-- C3 amended: `register` and `complete_level` preserve the invariant —
a new player starts at level 1 with balance "0", and a successful
`complete_level` never lowers the level and keeps a non-negative parsed
balance non-negative; `update_me`, however, only guarantees `level ≥ 1`
(the pydantic bound) and may lower the level or store an arbitrary,
possibly negative, balance string. -/
theorem progression_invariants_amended :
    (∀ (db : DB) (p : RegisterIn) (nid : Nat) (db1 : DB) (u : User),
      register db p nid = .ok (db1, u) → u.level = 1 ∧ u.money = "0") ∧
    (∀ (db : DB) (u : User) (d : CompleteLevelIn) (m : Int) (db1 : DB) (out : UserOut),
      0 ≤ d.coins_earned → pyIntParse u.money = some m → 0 ≤ m →
      complete_level db u d = .ok (db1, out) →
      u.level ≤ out.level ∧ ∃ m1, pyIntParse out.money = some m1 ∧ 0 ≤ m1) ∧
    (∀ (db : DB) (u : User) (d : UpdateMeIn) (db1 : DB) (u1 : User),
      d.valid → 1 ≤ u.level → update_me db u d = .ok (db1, u1) → 1 ≤ u1.level) := by
  refine ⟨?_, ?_, ?_⟩
  · intro db p nid db1 u h
    unfold register at h
    split at h
    · exact absurd h (by simp)
    · split at h
      · exact absurd h (by simp)
      · split at h
        · exact absurd h (by simp)
        · simp only [Except.ok.injEq, Prod.mk.injEq] at h
          rw [← h.2]
          exact ⟨rfl, rfl⟩
  · intro db u d m db1 out hc hm hm0 h
    obtain ⟨db1', hok, _⟩ := complete_level_ok_spec hm
    rw [hok] at h
    simp only [Except.ok.injEq, Prod.mk.injEq] at h
    rw [← h.2]
    constructor
    · show u.level ≤ (if u.level < 5 then u.level + 1 else u.level)
      split <;> omega
    · exact ⟨m + d.coins_earned, pyIntParse_pyStr _, by omega⟩
  · intro db u d db1 u1 hv h1 h
    unfold update_me at h
    split at h
    · exact absurd h (by simp)
    · rename_i u2 hs2
      split at h
      · exact absurd h (by simp)
      · rename_i u3 hg3
        simp only [Except.ok.injEq, Prod.mk.injEq] at h
        rw [← h.2]
        refine applyLevel_ge_one hv _ ?_
        rw [applyMoney_level, applyGender_level hg3, applySchool_level hs2,
            applyName_level]
        exact h1

/-- The store after registering `uEx` into an empty store. -/
def dbR : DB := ⟨[uEx], [], [], [], []⟩

/-- Witness for the amended C3: registration yields level 1 / "0"; a
concrete `complete_level` call keeps the level and balance; a valid
update keeps `level ≥ 1`. -/
theorem progression_invariants_amended_witness :
    (uEx.level = 1 ∧ uEx.money = "0") ∧
    (uEx.level ≤ (2 : Int) ∧ ∃ m1, pyIntParse "10" = some m1 ∧ 0 ≤ m1) ∧
    (1 : Int) ≤ (3 : Int) := by
  have h2 := progression_invariants_amended.2.1 dbEx uEx ⟨10, 30⟩ 0
    (⟨[⟨1, "A1", "Ana", "Aguachica", "Masculino", "10", 2⟩], [⟨1, "tok", 1000⟩], itemsEx,
      [⟨1, 1⟩, ⟨1, 2⟩], [⟨1, 30, 1⟩]⟩ : DB)
    (⟨1, "A1", "Ana", "Aguachica", "Masculino", "10", 2,
      [⟨1, "cinturon", "equip"⟩, ⟨2, "cristal-rojo", "crystal"⟩]⟩ : UserOut)
    (by decide) (by decide) (by decide) rfl
  have h3 := progression_invariants_amended.2.2 dbEx uEx
    ⟨some "Zoe", none, none, none, some 3⟩
    (⟨[⟨1, "A1", "Zoe", "Aguachica", "Masculino", "0", 3⟩], [⟨1, "tok", 1000⟩], itemsEx, [], []⟩ : DB)
    ⟨1, "A1", "Zoe", "Aguachica", "Masculino", "0", 3⟩
    (by intro l hl; simp only [Option.some.injEq] at hl; omega) (by decide) rfl
  exact ⟨progression_invariants_amended.1 ⟨[], [], [], [], []⟩
      ⟨"A1", "Ana", "Aguachica", "Masculino"⟩ 1 dbR uEx rfl, h2, h3⟩

/-- Player whose stored balance is the negative decimal text "-5". -/
def uC4 : User := ⟨1, "A1", "Ana", "Aguachica", "Masculino", "-5", 1⟩

/-- Store holding that player and the seeded catalog. -/
def dbC4 : DB := ⟨[uC4], [], itemsEx, [], []⟩

/-- The committed store after the C4 counterexample call. -/
def dbC4' : DB :=
  ⟨[⟨1, "A1", "Ana", "Aguachica", "Masculino", "-2", 2⟩], [], itemsEx,
   [⟨1, 1⟩, ⟨1, 2⟩], [⟨1, 4, 1⟩]⟩

/-- Counterexample to C4: the stored balance "-5" does not parse as a
non-negative integer (it parses as the negative integer -5), yet
`complete_level` raises no error and commits the run. -/
theorem completeLevel_negative_money_cex :
    pyIntParse uC4.money = some (-5) ∧ ((-5 : Int) < 0) ∧
    complete_level dbC4 uC4 ⟨3, 4⟩ = .ok (dbC4',
      ⟨1, "A1", "Ana", "Aguachica", "Masculino", "-2", 2,
       [⟨1, "cinturon", "equip"⟩, ⟨2, "cristal-rojo", "crystal"⟩]⟩) := by
  refine ⟨by decide, by decide, rfl⟩

/-- C4 amended: `complete_level` raises its 500 data-integrity error if
and only if the stored balance fails Python's `int` parse (signed integers
included); every error it raises is that error; on error nothing is
committed; and on success the balance is the exact re-stored sum — never
coerced to zero. -/
theorem completeLevel_error_characterization :
    (∀ (db : DB) (u : User) (d : CompleteLevelIn),
      complete_level db u d = .error ⟨500, "Formato inválido en campo 'money'"⟩ ↔
        pyIntParse u.money = none) ∧
    (∀ (db : DB) (u : User) (d : CompleteLevelIn) (e : HttpError),
      complete_level db u d = .error e →
        e = ⟨500, "Formato inválido en campo 'money'"⟩) ∧
    (∀ (db : DB) (uid : Nat) (u : User) (d : CompleteLevelIn),
      userById db uid = some u → pyIntParse u.money = none →
      completeLevelStep db uid d = db) ∧
    (∀ (db : DB) (u : User) (d : CompleteLevelIn) (m : Int) (db1 : DB) (out : UserOut),
      pyIntParse u.money = some m → complete_level db u d = .ok (db1, out) →
      out.money = pyStr (m + d.coins_earned)) := by
  refine ⟨complete_level_error_iff, ?_, ?_, ?_⟩
  · intro db u d e h
    exact (complete_level_error_shape h).1
  · intro db uid u d hu hp
    exact completeLevelStep_eq_of_error hu ((complete_level_error_iff db u d).mpr hp)
  · intro db u d m db1 out hm h
    obtain ⟨db1', hok, _⟩ := complete_level_ok_spec hm
    rw [hok] at h
    simp only [Except.ok.injEq, Prod.mk.injEq] at h
    rw [← h.2]
    rfl

/-- Player whose stored balance is the unparsable text "abc". -/
def uC4bad : User := ⟨2, "B2", "Bea", "Aractaca", "Femenino", "abc", 2⟩

/-- Store holding that player. -/
def dbC4bad : DB := ⟨[uC4bad], [], itemsEx, [], []⟩

/-- Witness for the amended C4: the unparsable balance "abc" raises the
500 error and the committed store is unchanged. -/
theorem completeLevel_error_characterization_witness :
    complete_level dbC4bad uC4bad ⟨1, 1⟩ =
      .error ⟨500, "Formato inválido en campo 'money'"⟩ ∧
    completeLevelStep dbC4bad 2 ⟨1, 1⟩ = dbC4bad :=
  ⟨(completeLevel_error_characterization.1 dbC4bad uC4bad ⟨1, 1⟩).mpr (by decide),
   completeLevel_error_characterization.2.2.1 dbC4bad 2 uC4bad ⟨1, 1⟩ (by decide) (by decide)⟩

/-- The registration payload for the read-model scenario. -/
def regC6 : RegisterIn := ⟨"A1", "Ana", "Aguachica", "Masculino"⟩

/-- C6 (the code contradicts its own `response_model=UserOut` contract):
the ORM `User` row returned by `register` and `update_me` has no `items`
attribute, so the pydantic validation that `response_model=UserOut`
applies to it fails for every user row — neither endpoint can return the
read-model, although the assembler produces it (empty item list for a
fresh registration) from the very state `register` commits. -/
theorem register_update_response_missing_items :
    (∀ u : User, userOutValidate u.getattr = none) ∧
    register ⟨[], [], [], [], []⟩ regC6 1 = .ok (dbR, uEx) ∧
    assemble dbR uEx = ⟨1, "A1", "Ana", "Aguachica", "Masculino", "0", 1, []⟩ :=
  ⟨fun _ => rfl, rfl, by decide⟩

/-- Witness for C7: two calls with 10 and 5 coins on a "0" balance leave
the committed balance parsed as 15 and stored as "15". -/
theorem completeLevel_currency_sum_witness :
    ∃ w, userById (runCompleteLevels dbEx 1 [⟨10, 30⟩, ⟨5, 2⟩]) 1 = some w ∧
      pyIntParse w.money = some (0 + ([⟨10, 30⟩, ⟨5, 2⟩].map CompleteLevelIn.coins_earned).sum) ∧
      ([⟨10, 30⟩, ⟨5, 2⟩] ≠ ([] : List CompleteLevelIn) →
        w.money = pyStr (0 + ([⟨10, 30⟩, ⟨5, 2⟩].map CompleteLevelIn.coins_earned).sum)) :=
  completeLevel_currency_sum [⟨10, 30⟩, ⟨5, 2⟩] dbEx 1 uEx 0 (by decide) (by decide)
    (by intro d hd; fin_cases hd <;> decide)

/-- C9: `update_me` accepts any string for `money` and stores it verbatim
as the player's balance, with no validation: the call succeeds and commits
the row whose `money` field is exactly the supplied string. -/
theorem updateMe_money_verbatim (db : DB) (u : User) (m : String) :
    update_me db u ⟨none, none, none, some m, none⟩ =
      .ok (commitUser db { u with money := m }, { u with money := m }) := rfl

/-- C8: a patch whose `school` field is present but not one of the three
fixed school values makes `update_me` fail with the 400 validation error,
and the committed store is unchanged — even when other fields such as
`name` were staged earlier in the patch. -/
theorem updateMe_invalid_school_rollback (db : DB) (u : User) (d : UpdateMeIn) (s : String)
    (hs : d.school = some s) (hinv : s ∉ SCHOOL_VALUES) :
    update_me db u d = .error ⟨400, "school inválido"⟩ ∧
    (∀ uid, userById db uid = some u → updateMeStep db uid d = db) := by
  have herr : update_me db u d = .error ⟨400, "school inválido"⟩ := by
    unfold update_me
    rw [applySchool_invalid hs hinv]
  refine ⟨herr, fun uid hu => ?_⟩
  unfold updateMeStep
  rw [hu]
  simp only [herr]

/-- Witness for C8 at a concrete store: a patch staging a new name next to
an invalid school is rejected and commits nothing. -/
theorem updateMe_invalid_school_rollback_witness :
    update_me dbEx uEx ⟨some "Eve", some "InvalidSchool", none, none, none⟩ =
      .error ⟨400, "school inválido"⟩ ∧
    updateMeStep dbEx 1 ⟨some "Eve", some "InvalidSchool", none, none, none⟩ = dbEx :=
  ⟨(updateMe_invalid_school_rollback dbEx uEx _ "InvalidSchool" rfl (by decide)).1,
   (updateMe_invalid_school_rollback dbEx uEx _ "InvalidSchool" rfl (by decide)).2 1 (by decide)⟩

/-- C10: `logout` is idempotent on the session store — the second revoke
of a token leaves the state of the first and deletes 0 rows; sessions of
other tokens survive and no session appears from nowhere; with unique
stored tokens the first revoke of an existing token reports count 1, and
revoking an absent token reports count 0. -/
theorem logout_idempotent (db : DB) (t : String)
    (hnd : (db.sessions.map SessionToken.token).Nodup) :
    (logout (logout db t).1 t).1 = (logout db t).1 ∧
    (logout (logout db t).1 t).2 = 0 ∧
    (∀ s ∈ db.sessions, s.token ≠ t → s ∈ (logout db t).1.sessions) ∧
    (∀ s ∈ (logout db t).1.sessions, s ∈ db.sessions) ∧
    ((∃ s ∈ db.sessions, s.token = t) → (logout db t).2 = 1) ∧
    ((∀ s ∈ db.sessions, s.token ≠ t) → (logout db t).2 = 0) := by
  refine ⟨?_, ?_, ?_, ?_, fun hex => length_filter_token_eq_one hnd hex, fun hall => ?_⟩
  · simp only [logout]
    congr 1
    exact filter_not_token_idem db.sessions t
  · simp only [logout]
    rw [filter_token_after_not]
    rfl
  · intro s hmem hne
    simp only [logout, List.mem_filter]
    exact ⟨hmem, by simp [hne]⟩
  · intro s hmem
    simp only [logout, List.mem_filter] at hmem
    exact hmem.1
  · simp only [logout]
    rw [List.filter_eq_nil_iff.mpr (fun s hs => by simp [hall s hs])]
    rfl

/-- C5: `user_by_token` (the `validate` operation) returns a player iff a
session with exactly this token exists whose expiry is strictly in the
future (given the foreign-key invariant that sessions reference existing
users), and any player it returns is the owner of such a session; unknown
or expired tokens never yield a player. -/
theorem user_by_token_spec (db : DB) (t : String) (now : Int)
    (hfk : ∀ s ∈ db.sessions, ∃ u ∈ db.users, u.id = s.user_id) :
    ((∃ u, user_by_token db t now = some u) ↔
      ∃ s ∈ db.sessions, s.token = t ∧ now < s.expires_at) ∧
    (∀ u, user_by_token db t now = some u →
      u ∈ db.users ∧ ∃ s ∈ db.sessions, s.token = t ∧ now < s.expires_at ∧ u.id = s.user_id) := by
  constructor
  · constructor
    · rintro ⟨u, hu⟩
      unfold user_by_token at hu
      split at hu
      · exact absurd hu (by simp)
      · rename_i sess hfind
        have hmem := List.mem_of_find?_eq_some hfind
        have hp := List.find?_some hfind
        simp only [decide_eq_true_eq] at hp
        exact ⟨sess, hmem, hp⟩
    · rintro ⟨s, hmem, hst, hexp⟩
      have hsome : (db.sessions.find? (fun s => decide (s.token = t ∧ now < s.expires_at))).isSome :=
        List.find?_isSome.mpr ⟨s, hmem, by simp [hst, hexp]⟩
      obtain ⟨sess, hfind⟩ := Option.isSome_iff_exists.mp hsome
      have hsmem := List.mem_of_find?_eq_some hfind
      obtain ⟨w, hwmem, hwid⟩ := hfk sess hsmem
      have husome : (db.users.find? (fun u => decide (u.id = sess.user_id))).isSome :=
        List.find?_isSome.mpr ⟨w, hwmem, by simp [hwid]⟩
      obtain ⟨u, hufind⟩ := Option.isSome_iff_exists.mp husome
      refine ⟨u, ?_⟩
      unfold user_by_token
      rw [hfind]
      exact hufind
  · intro u hu
    unfold user_by_token at hu
    split at hu
    · exact absurd hu (by simp)
    · rename_i sess hfind
      have hsp := List.find?_some hfind
      simp only [decide_eq_true_eq] at hsp
      have hup := List.find?_some hu
      simp only [decide_eq_true_eq] at hup
      exact ⟨List.mem_of_find?_eq_some hu,
        sess, List.mem_of_find?_eq_some hfind, hsp.1, hsp.2, hup⟩

/-- Witness for C5: the live token authenticates at `now = 100`, and the
same token no longer authenticates once `now` passes its expiry `1000`. -/
theorem user_by_token_spec_witness :
    (∃ u, user_by_token dbEx "tok" 100 = some u) ∧
    ¬ (∃ u, user_by_token dbEx "tok" 2000 = some u) :=
  ⟨(user_by_token_spec dbEx "tok" 100 (by decide)).1.mpr
      ⟨⟨1, "tok", 1000⟩, by decide, rfl, by decide⟩,
   fun hex => absurd ((user_by_token_spec dbEx "tok" 2000 (by decide)).1.mp hex) (by decide)⟩

/-- Witness for C10 at a concrete store with two sessions. -/
theorem logout_idempotent_witness :
    (logout dbL "tok").2 = 1 ∧ (logout (logout dbL "tok").1 "tok").2 = 0 ∧
    (logout (logout dbL "tok").1 "tok").1 = (logout dbL "tok").1 :=
  ⟨(logout_idempotent dbL "tok" (by decide)).2.2.2.2.1 (by decide),
   (logout_idempotent dbL "tok" (by decide)).2.1,
   (logout_idempotent dbL "tok" (by decide)).1⟩

end Game
